import Mathlib

/-!
Shallow embedding of the podcast pipeline of this repository:
`src/podcast_creator.py`, `src/voice_generator.py`, `src/text_analyzer.py`
and `src/config.py`.  Python strings are modeled as `List Char`, byte
buffers (audio data) as `List Nat`.  Threading is modeled explicitly: the
completion order of the worker pool is a `schedule : List Nat` listing task
indices in the order in which they finish.
-/

/-- ASCII whitespace characters removed by Python `str.strip()`. -/
def pyIsSpace (c : Char) : Bool :=
  c == ' ' || c == '\t' || c == '\n' || c == '\r' || c == '\x0b' || c == '\x0c'

/-- Python `s.strip()`: drop leading and trailing whitespace. -/
def strip (s : List Char) : List Char :=
  ((s.dropWhile pyIsSpace).reverse.dropWhile pyIsSpace).reverse

/-- Python `script.split('\n')`. -/
def splitOnNl : List Char → List (List Char)
  | [] => [[]]
  | c :: cs =>
    if c = '\n' then [] :: splitOnNl cs
    else
      match splitOnNl cs with
      | [] => [[c]]
      | l :: ls => (c :: l) :: ls

/-- Python `line.split(':', 1)` for a line known to contain a colon:
the pair of the text before the first `':'` and the text after it. -/
def splitColon1 : List Char → List Char × List Char
  | [] => ([], [])
  | c :: cs =>
    if c = ':' then ([], cs)
    else
      let p := splitColon1 cs
      (c :: p.1, p.2)

/-- Python `' '.join(parts)`. -/
def joinSpace (parts : List (List Char)) : List Char :=
  List.intercalate [' '] parts

/-- A parsed dialogue segment: `(speaker, text)`. -/
abbrev Segment : Type := List Char × List Char

namespace PodcastCreator

/-- The segment-save step of `PodcastCreator.clean_script`
(`if current_speaker and current_text: segments.append(...)`): a segment is
saved only when the current speaker is a non-empty string (Python truthiness
of `current_speaker`, which may be `None` or `""`) and the accumulated text
list is non-empty. -/
def saveSeg (cs : Option (List Char)) (ct : List (List Char)) : List Segment :=
  match cs with
  | some sp => if sp ≠ [] ∧ ct ≠ [] then [(sp, joinSpace ct)] else []
  | none => []

/-- The loop of `PodcastCreator.clean_script` over the preprocessed lines,
carrying `current_speaker` and `current_text`.  A line containing `':'`
saves the pending segment and starts a new one from the trimmed parts of
`line.split(':', 1)`; otherwise the line is appended to the current text,
but only when `current_speaker` is truthy (`elif current_speaker:`). -/
def cleanLoop : List (List Char) → Option (List Char) → List (List Char) → List Segment
  | [], cs, ct => saveSeg cs ct
  | line :: rest, cs, ct =>
    if (':') ∈ line then
      saveSeg cs ct ++
        cleanLoop rest (some (strip (splitColon1 line).1)) [strip (splitColon1 line).2]
    else
      match cs with
      | some sp => if sp ≠ [] then cleanLoop rest cs (ct ++ [line]) else cleanLoop rest cs ct
      | none => cleanLoop rest cs ct

/-- Line preprocessing of `clean_script`:
`[line.strip() for line in script.split('\n') if line.strip()]`. -/
def processedLines (script : List Char) : List (List Char) :=
  ((splitOnNl script).map strip).filter (fun l => !l.isEmpty)

/-- Embedding of `PodcastCreator.clean_script` (src/podcast_creator.py lines 113-140). -/
def clean_script (script : List Char) : List Segment :=
  cleanLoop (processedLines script) none []

end PodcastCreator

namespace AudioProcessor

/-- State of an `AudioProcessor` instance: the `_audio_cache` mapping
(cache key to cached value) and a counter of how many times the TTS engine
was actually invoked (entries into the `try` block of `get_audio`). -/
structure State where
  cache : List (List Char × List Char)
  backendCalls : Nat
deriving DecidableEq

/-- Cache key of `get_audio`: `f"{text}:{voice_id}"`. -/
def cacheKey (text voice_id : List Char) : List Char :=
  text ++ ':' :: voice_id

/-- Embedding of `AudioProcessor.get_audio` (src/podcast_creator.py lines 82-104).
Returns `((audio, error_message), new_state)`.  The engine interaction is
abstracted by `outcome`: `Except.ok fname` is a successful
`save_to_file`/`runAndWait` producing temp file `fname`, `Except.error e`
is an exception caught by the `except` clause.  Note that the source reads
`_audio_cache` but never writes to it, so the state's cache is returned
unchanged on every path. -/
def get_audio (st : State) (text voice_id : List Char)
    (outcome : Except (List Char) (List Char)) :
    (Option (List Char) × List Char) × State :=
  if strip text = [] then ((none, []), st)
  else
    match st.cache.lookup (cacheKey text voice_id) with
    | some v => ((some v, []), st)
    | none =>
      match outcome with
      | Except.ok fname => ((some fname, []), ⟨st.cache, st.backendCalls + 1⟩)
      | Except.error e => ((none, e), ⟨st.cache, st.backendCalls + 1⟩)

/-- Embedding of `AudioProcessor.concatenate_wav_files` (src/podcast_creator.py lines
47-80), modeled at the level of audio frame data: each input file is
represented by its frame data and the output is those frames written in
order into one stream (the WAV container header is abstracted away).  No
silence is inserted.  Returns `none` for an empty input list, as the
source does. -/
def concatenate_wav_files (wavFiles : List (List Nat)) : Option (List Nat) :=
  if wavFiles = [] then none else some wavFiles.flatten

end AudioProcessor

namespace PodcastCreator

/-- Embedding of `PodcastCreator.process_segment` (src/podcast_creator.py lines 142-151):
pick `voices['host1']` for the first speaker and `voices['host2']`
otherwise (the two voices are passed as `v1`, `v2`), call `get_audio`, and
return `None` when the error message is truthy, else the temp filename. -/
def process_segment (st : AudioProcessor.State) (text : List Char)
    (is_first_speaker : Bool) (v1 v2 : List Char)
    (outcome : Except (List Char) (List Char)) :
    Option (List Char) × AudioProcessor.State :=
  let voice_id := if is_first_speaker then v1 else v2
  let r := AudioProcessor.get_audio st text voice_id outcome
  if r.1.2 ≠ [] then (none, r.2) else (r.1.1, r.2)

/-- The table of future results after the worker pool has run the tasks
whose indices are listed in `schedule`, in that completion order.  Task `i`
writes `results.get? i` into slot `i`; a slot of a task that has not
completed holds `none`. -/
def tableAfter (results : List (Option (List Nat))) (schedule : List Nat) :
    Nat → Option (Option (List Nat)) :=
  schedule.foldl (fun tbl i => fun j => if j = i then results.get? i else tbl j)
    (fun _ => none)

/-- The collection loop of `create_podcast`
(`for future in futures: temp_file = future.result(); if temp_file: ...`):
read the future table in submission order `0, 1, ..., n-1` and keep the
successful results. -/
def collectFiles (results : List (Option (List Nat))) (schedule : List Nat) :
    List (List Nat) :=
  (List.range results.length).filterMap (fun i => (tableAfter results schedule i).join)

/-- Embedding of `PodcastCreator.create_podcast` (src/podcast_creator.py lines 153-185).
The per-task work `process_segment(text, idx % 2 == 0)` is abstracted as a
deterministic function `synth` of the segment index and text, returning the
audio data of the produced temp file or `none` on a skipped segment;
`schedule` is the order in which the pool finishes the tasks. -/
def create_podcast (script : List Char) (synth : Nat → List Char → Option (List Nat))
    (schedule : List Nat) : Option (List Nat) :=
  let segments := clean_script script
  if segments = [] then none
  else
    let results := segments.enum.map (fun p => synth p.1 p.2.2)
    let tempFiles := collectFiles results schedule
    if tempFiles = [] then none
    else AudioProcessor.concatenate_wav_files tempFiles

/-- The successfully synthesized clips joined in original parsed-script
order: the canonical, schedule-independent output of `create_podcast`. -/
def orderedOutput (script : List Char) (synth : Nat → List Char → Option (List Nat)) :
    Option (List Nat) :=
  let segments := clean_script script
  if segments = [] then none
  else
    let clips := (segments.enum.map (fun p => synth p.1 p.2.2)).filterMap id
    if clips = [] then none
    else some clips.flatten

/-- Embedding of `PodcastResponse` (src/podcast_creator.py lines 13-19). -/
structure PodcastResponse where
  text_answer : List Char
  podcast_script : Option (List Char)
  audio : Option (List Nat)
  error : Option (List Char)
deriving DecidableEq

/-- Embedding of `PodcastCreator.process_answer` (src/podcast_creator.py lines 187-227).
With no script the response carries no audio; otherwise the audio is
`create_podcast`'s result.  `error` defaults to `None` and is assigned only
in the `except` branch, which the modeled (pure) steps never take, so it is
`none` on every path. -/
def process_answer (text_answer : List Char) (podcast_script : Option (List Char))
    (synth : Nat → List Char → Option (List Nat)) (schedule : List Nat) :
    PodcastResponse :=
  match podcast_script with
  | none => ⟨text_answer, none, none, none⟩
  | some script => ⟨text_answer, some script, create_podcast script synth schedule, none⟩

end PodcastCreator

namespace VoiceGenerator

/-- The keys of `self.voices` in `VoiceGenerator.__init__`: the dict is
created as `{"Sarah": None, "Mike": None}` and only its values are ever
updated, so `speaker not in self.voices` tests against these two labels. -/
def knownSpeakers : List (List Char) :=
  ["Sarah".data, "Mike".data]

/-- The segment-splitting loop of `VoiceGenerator.create_podcast`
(src/voice_generator.py lines 88-100): lines without `':'` are skipped, the
line is split at the first `':'` and both parts trimmed, and the segment is
kept only when the text is non-empty and the speaker is a key of
`self.voices`. -/
def parseSegments (script : List Char) : List Segment :=
  (splitOnNl script).filterMap (fun line =>
    if (':') ∈ line then
      let sp := strip (splitColon1 line).1
      let tx := strip (splitColon1 line).2
      if tx ≠ [] ∧ sp ∈ knownSpeakers then some (sp, tx) else none
    else none)

/-- The silence buffer `b'\x00' * 1000` appended after each clip. -/
def silence : List Nat :=
  List.replicate 1000 0

/-- The generation loop of `VoiceGenerator.create_podcast` (lines 106-116):
for each segment, if `generate_audio_segment` succeeds the clip is appended
and then a silence buffer is appended (after every successful clip,
including the last). -/
def buildSegments (synth : Segment → Option (List Nat)) : List Segment → List (List Nat)
  | [] => []
  | s :: rest =>
    match synth s with
    | some a => a :: silence :: buildSegments synth rest
    | none => buildSegments synth rest

/-- Embedding of `VoiceGenerator.create_podcast` (src/voice_generator.py lines 81-127):
parse the segments, generate audio per segment with `synth` (abstracting
`generate_audio_segment`), and join everything with `b''.join`.  The
`raise`d exceptions for "no valid segments" and "no audio segments" are
caught by the surrounding `except`, which returns `None`. -/
def create_podcast (script : List Char) (synth : Segment → Option (List Nat)) :
    Option (List Nat) :=
  let segs := parseSegments script
  if segs = [] then none
  else
    let audioSegs := buildSegments synth segs
    if audioSegs = [] then none
    else some audioSegs.flatten

end VoiceGenerator

/-- The constant `MAX_CHUNK_SIZE` from src/config.py. -/
def MAX_CHUNK_SIZE : Nat := 8000

/-- Embedding of `TextAnalyzer._chunk_text`:
`[text[i:i + self.chunk_size] for i in range(0, len(text), self.chunk_size)]`
with `self.chunk_size = MAX_CHUNK_SIZE`.  Written as the equivalent
recursion: take the next `MAX_CHUNK_SIZE` characters, recurse on the rest. -/
def chunk_text (s : List Char) : List (List Char) :=
  if h : s = [] then []
  else s.take MAX_CHUNK_SIZE :: chunk_text (s.drop MAX_CHUNK_SIZE)
termination_by s.length
decreasing_by
  simp only [List.length_drop, MAX_CHUNK_SIZE]
  have hp : 0 < s.length := List.length_pos.mpr h
  omega

/-- The state of the C3 scenario after one call:
`get_audio("hi", "v1")` on a fresh `AudioProcessor`. -/
def c3Call1 : (Option (List Char) × List Char) × AudioProcessor.State :=
  AudioProcessor.get_audio ⟨[], 0⟩ ("hi").data ("v1").data (Except.ok ("f1").data)

/-- The C3 scenario's second, identical call, carried out in the state the
first call returned; the engine produces a fresh temp file `f2`. -/
def c3Call2 : (Option (List Char) × List Char) × AudioProcessor.State :=
  AudioProcessor.get_audio c3Call1.2 ("hi").data ("v1").data (Except.ok ("f2").data)

/-- The one-segment script of the C2 counterexample. -/
def c2Script : List Char := ("Sarah: hi").data

/-- A synthesizer that produces a 3-byte clip for every segment. -/
def c2Synth : Segment → Option (List Nat) := fun _ => some [7, 7, 7]

/-- The one-segment script of the C4 all-fail scenario. -/
def c4Script : List Char := ("Sarah: hi").data

/-- The script of the C7 counterexample with an unrecognized speaker. -/
def c7BobScript : List Char := ("Bob: hi there").data

/-- The same line with a recognized speaker. -/
def c7MikeScript : List Char := ("Mike: hi there").data

/-- A line containing no delimiter character. -/
def noColon (l : List Char) : Bool := !decide ((':') ∈ l)

/-- Removal of trailing whitespace only (the second half of `strip`). -/
def stripEnd (l : List Char) : List Char :=
  (l.reverse.dropWhile pyIsSpace).reverse

/-- Modeled from the spec's parsing rule (section 4.1), for comparison
with `clean_script`: a line containing `':'` starts a new segment whose
speaker is the trimmed text before the first `':'` and whose text is the
trimmed remainder followed by the subsequent non-delimiter lines, joined
with single spaces; lines before the first delimiter line are discarded. -/
def specParse : List (List Char) → List Segment
  | [] => []
  | line :: rest =>
    if (':') ∈ line then
      (strip (splitColon1 line).1,
        joinSpace (strip (splitColon1 line).2 :: rest.takeWhile noColon))
        :: specParse (rest.dropWhile noColon)
    else specParse rest
termination_by l => l.length
decreasing_by
  all_goals simp only [List.length_cons]
  · exact Nat.lt_succ_of_le (List.dropWhile_sublist noColon).length_le
  · exact Nat.lt_succ_self _

theorem chunk_text_eq_nil_iff (s : List Char) : chunk_text s = [] ↔ s = [] := by
  constructor
  · intro h
    by_contra hs
    rw [chunk_text] at h
    simp [hs] at h
  · intro h
    subst h
    rw [chunk_text]
    simp

theorem chunk_text_flatten (s : List Char) : (chunk_text s).flatten = s := by
  induction s using chunk_text.induct with
  | case1 => simp [chunk_text]
  | case2 s h ih =>
    rw [chunk_text]
    simp [h, List.flatten_cons, ih]

theorem chunk_text_le (s : List Char) :
    ∀ c ∈ chunk_text s, c.length ≤ MAX_CHUNK_SIZE := by
  induction s using chunk_text.induct with
  | case1 => simp [chunk_text]
  | case2 s h ih =>
    rw [chunk_text]
    simp only [dif_neg h]
    intro c hc
    rcases List.mem_cons.mp hc with rfl | hc2
    · simp [List.length_take]
    · exact ih c hc2

theorem chunk_text_full (s : List Char) :
    ∀ c ∈ (chunk_text s).dropLast, c.length = MAX_CHUNK_SIZE := by
  induction s using chunk_text.induct with
  | case1 => simp [chunk_text]
  | case2 s h ih =>
    rw [chunk_text]
    simp only [dif_neg h]
    by_cases hd : s.drop MAX_CHUNK_SIZE = []
    · rw [(chunk_text_eq_nil_iff _).mpr hd]
      simp
    · have hne : chunk_text (s.drop MAX_CHUNK_SIZE) ≠ [] := by
        rw [Ne, chunk_text_eq_nil_iff]
        exact hd
      rw [List.dropLast_cons_of_ne_nil hne]
      intro c hc
      rcases List.mem_cons.mp hc with rfl | hc2
      · have hlt : MAX_CHUNK_SIZE < s.length := by
          by_contra hle
          push_neg at hle
          exact hd (List.drop_eq_nil_of_le hle)
        simp [List.length_take]
        omega
      · exact ih c hc2

/-- C10: `TextAnalyzer._chunk_text` partitions its input losslessly:
concatenating the chunks in order reproduces the input exactly, every
chunk has length at most `MAX_CHUNK_SIZE` (8000), every chunk except
possibly the last has length exactly `MAX_CHUNK_SIZE`, and the empty
string yields zero chunks. -/
theorem C10_chunker (s : List Char) :
    (chunk_text s).flatten = s ∧
    (∀ c ∈ chunk_text s, c.length ≤ MAX_CHUNK_SIZE) ∧
    (∀ c ∈ (chunk_text s).dropLast, c.length = MAX_CHUNK_SIZE) ∧
    chunk_text [] = [] :=
  ⟨chunk_text_flatten s, chunk_text_le s, chunk_text_full s,
    (chunk_text_eq_nil_iff []).mpr rfl⟩

/-- Witness for C10 at the concrete input "ab". -/
theorem C10_chunker_witness :
    (chunk_text "ab".data).flatten = "ab".data ∧ chunk_text [] = [] :=
  ⟨(C10_chunker "ab".data).1, (C10_chunker "ab".data).2.2.2⟩

namespace PodcastCreator

theorem tableAfter_foldl (results : List (Option (List Nat))) (schedule : List Nat) :
    ∀ (tbl : Nat → Option (Option (List Nat))) (j : Nat),
      (schedule.foldl (fun tbl i => fun j => if j = i then results.get? i else tbl j) tbl) j
        = if j ∈ schedule then results.get? j else tbl j := by
  induction schedule with
  | nil => intro tbl j; simp
  | cons i rest ih =>
    intro tbl j
    simp only [List.foldl_cons]
    rw [ih]
    by_cases hjr : j ∈ rest
    · simp [hjr]
    · by_cases hji : j = i
      · subst hji
        simp [hjr]
      · simp [hjr, hji]

theorem tableAfter_eq (results : List (Option (List Nat))) (schedule : List Nat) (j : Nat) :
    tableAfter results schedule j = if j ∈ schedule then results.get? j else none :=
  tableAfter_foldl results schedule _ j

theorem range_filterMap_join (rs : List (Option (List Nat))) :
    (List.range rs.length).filterMap (fun i => (rs.get? i).join) = rs.filterMap id := by
  induction rs with
  | nil => simp
  | cons a t ih =>
    rw [List.length_cons, List.range_succ_eq_map, List.filterMap_cons, List.filterMap_map]
    have hcomp : ((fun i => ((a :: t).get? i).join) ∘ Nat.succ)
        = fun i => (t.get? i).join := by
      funext i
      simp [Function.comp, List.get?_eq_getElem?]
    rw [hcomp, ih]
    cases a <;> simp [List.get?_eq_getElem?]

theorem collectFiles_eq (rs : List (Option (List Nat))) (sched : List Nat)
    (h : ∀ i < rs.length, i ∈ sched) :
    collectFiles rs sched = rs.filterMap id := by
  unfold collectFiles
  rw [← range_filterMap_join rs]
  apply List.filterMap_congr
  intro i hi
  rw [List.mem_range] at hi
  rw [tableAfter_eq, if_pos (h i hi)]

theorem create_podcast_complete (script : List Char)
    (synth : Nat → List Char → Option (List Nat)) (sched : List Nat)
    (h : ∀ i < (clean_script script).length, i ∈ sched) :
    create_podcast script synth sched = orderedOutput script synth := by
  unfold create_podcast orderedOutput
  by_cases hs : clean_script script = []
  · simp [hs]
  · simp only [if_neg hs]
    have hlen : ((clean_script script).enum.map (fun p => synth p.1 p.2.2)).length
        = (clean_script script).length := by
      simp
    rw [collectFiles_eq _ _ (by rw [hlen]; exact h)]
    by_cases hc : ((clean_script script).enum.map (fun p => synth p.1 p.2.2)).filterMap id = []
    · rw [if_pos hc, if_pos hc]
    · rw [if_neg hc, if_neg hc]
      unfold AudioProcessor.concatenate_wav_files
      rw [if_neg hc]

end PodcastCreator

/-- C1: for every script, the collection step of `create_podcast` gathers
results per submitted task in submission order, so for any completion
schedule covering all tasks the final concatenated audio is the
successfully synthesized clips joined in parsed-script order
(`orderedOutput`), and any two complete schedules produce the same
output. -/
theorem C1_segment_order (script : List Char)
    (synth : Nat → List Char → Option (List Nat)) (sched1 sched2 : List Nat)
    (h1 : ∀ i < (PodcastCreator.clean_script script).length, i ∈ sched1)
    (h2 : ∀ i < (PodcastCreator.clean_script script).length, i ∈ sched2) :
    PodcastCreator.create_podcast script synth sched1
      = PodcastCreator.orderedOutput script synth ∧
    PodcastCreator.create_podcast script synth sched1
      = PodcastCreator.create_podcast script synth sched2 := by
  refine ⟨PodcastCreator.create_podcast_complete _ _ _ h1, ?_⟩
  rw [PodcastCreator.create_podcast_complete _ _ _ h1,
    PodcastCreator.create_podcast_complete _ _ _ h2]

/-- Witness for C1: a three-segment script, one failing segment, run under
the reversed completion schedule and the in-order one. -/
theorem C1_segment_order_witness :
    PodcastCreator.create_podcast ("Sarah: hi\nMike: yo\nSarah: end").data
        (fun i _ => if i = 1 then none else some [i]) [2, 0, 1]
      = PodcastCreator.orderedOutput ("Sarah: hi\nMike: yo\nSarah: end").data
          (fun i _ => if i = 1 then none else some [i]) ∧
    PodcastCreator.create_podcast ("Sarah: hi\nMike: yo\nSarah: end").data
        (fun i _ => if i = 1 then none else some [i]) [2, 0, 1]
      = PodcastCreator.create_podcast ("Sarah: hi\nMike: yo\nSarah: end").data
          (fun i _ => if i = 1 then none else some [i]) [0, 1, 2] :=
  C1_segment_order _ _ _ _ (by decide) (by decide)

/-- C3 (code bug): `_audio_cache` is consulted but never populated, so two
invocations with the identical `(text, voice)` pair both reach the engine:
after the second call the backend-call counter is 2 (not at most 1), the
cache is still empty, and the two calls return different temp files rather
than byte-identical output. -/
theorem C3_cache_never_populated :
    c3Call2.2.backendCalls = 2 ∧
    c3Call2.2.cache = [] ∧
    c3Call1.1.1 ≠ c3Call2.1.1 := by
  decide

theorem buildSegments_flatten_length (synth : Segment → Option (List Nat)) :
    ∀ segs : List Segment,
      ((VoiceGenerator.buildSegments synth segs).flatten).length
        = ((segs.filterMap synth).map List.length).sum
          + (segs.filterMap synth).length * 1000 := by
  intro segs
  induction segs with
  | nil => simp [VoiceGenerator.buildSegments]
  | cons s rest ih =>
    cases hs : synth s with
    | none => simp [VoiceGenerator.buildSegments, hs, List.filterMap_cons, ih]
    | some a =>
      have hsil : VoiceGenerator.silence.length = 1000 := by
        rw [VoiceGenerator.silence, List.length_replicate]
      simp [VoiceGenerator.buildSegments, hs, List.filterMap_cons, ih, hsil]
      ring

set_option maxRecDepth 10000 in
theorem buildSegments_ne_nil (synth : Segment → Option (List Nat))
    (segs : List Segment) (h : ∃ s ∈ segs, (synth s).isSome = true) :
    VoiceGenerator.buildSegments synth segs ≠ [] := by
  induction segs with
  | nil => simp at h
  | cons s rest ih =>
    cases hs : synth s with
    | some a => simp [VoiceGenerator.buildSegments, hs]
    | none =>
      simp only [VoiceGenerator.buildSegments, hs]
      apply ih
      rcases h with ⟨x, hx, hsome⟩
      rcases List.mem_cons.mp hx with rfl | hxr
      · rw [hs] at hsome
        simp at hsome
      · exact ⟨x, hxr, hsome⟩

set_option maxRecDepth 10000 in
/-- C2 counterexample: on a script whose parse has exactly K = 1
successfully synthesized clip, of byte length 3, the concatenated output
has byte length 1003 — clip plus one full silence buffer — and not
3 + (K−1)·1000 = 3 as the claim states: the silence buffer is appended
after the last clip too, not only between consecutive clips. -/
theorem C2_counterexample :
    ((VoiceGenerator.parseSegments c2Script).filterMap c2Synth).length = 1 ∧
    (VoiceGenerator.create_podcast c2Script c2Synth).map List.length = some 1003 ∧
    ¬ (VoiceGenerator.create_podcast c2Script c2Synth).map List.length
        = some (3 + (1 - 1) * 1000) := by
  decide

/-- C2 (amended): for every script and synthesizer with at least one
successfully synthesized clip, `VoiceGenerator.create_podcast` returns a
buffer whose byte length is the sum of the K successful clip lengths plus
exactly K silence-buffer lengths (1000 bytes each): one silence buffer is
appended after every successful clip, including the last. -/
theorem C2_amended (script : List Char) (synth : Segment → Option (List Nat))
    (h : ∃ s ∈ VoiceGenerator.parseSegments script, (synth s).isSome = true) :
    ∃ a, VoiceGenerator.create_podcast script synth = some a ∧
      a.length
        = (((VoiceGenerator.parseSegments script).filterMap synth).map List.length).sum
          + ((VoiceGenerator.parseSegments script).filterMap synth).length * 1000 := by
  unfold VoiceGenerator.create_podcast
  have hsegs : ¬ VoiceGenerator.parseSegments script = [] := by
    rcases h with ⟨x, hx, _⟩
    intro hnil
    rw [hnil] at hx
    simp at hx
  rw [if_neg hsegs]
  have hbuild := buildSegments_ne_nil synth _ h
  rw [if_neg hbuild]
  exact ⟨_, rfl, buildSegments_flatten_length synth _⟩

/-- Witness for the amended C2 at the concrete one-segment script. -/
theorem C2_amended_witness :
    ∃ a, VoiceGenerator.create_podcast c2Script c2Synth = some a ∧
      a.length
        = (((VoiceGenerator.parseSegments c2Script).filterMap c2Synth).map List.length).sum
          + ((VoiceGenerator.parseSegments c2Script).filterMap c2Synth).length * 1000 :=
  C2_amended c2Script c2Synth (by decide)

namespace PodcastCreator

theorem collectFiles_all_none (rs : List (Option (List Nat))) (sched : List Nat)
    (h : ∀ x ∈ rs, x = none) : collectFiles rs sched = [] := by
  unfold collectFiles
  rw [List.filterMap_eq_nil_iff]
  intro i _
  rw [tableAfter_eq]
  by_cases hi : i ∈ sched
  · rw [if_pos hi]
    cases hg : rs.get? i with
    | none => rfl
    | some x =>
      have hx := h x (List.getElem?_mem (by rw [← List.get?_eq_getElem?]; exact hg))
      subst hx
      rfl
  · rw [if_neg hi]
    rfl

theorem create_podcast_all_fail (script : List Char)
    (synth : Nat → List Char → Option (List Nat)) (sched : List Nat)
    (h : ∀ i t, synth i t = none) :
    create_podcast script synth sched = none := by
  unfold create_podcast
  by_cases hs : clean_script script = []
  · rw [if_pos hs]
  · simp only [if_neg hs]
    have hall : ∀ x ∈ (clean_script script).enum.map (fun p => synth p.1 p.2.2),
        x = none := by
      intro x hx
      rcases List.mem_map.mp hx with ⟨p, _, rfl⟩
      exact h p.1 p.2.2
    rw [collectFiles_all_none _ _ hall]
    simp

end PodcastCreator

set_option maxRecDepth 10000 in
/-- C4 counterexample: on a script whose parse is non-empty and whose every
segment's synthesis fails, `process_answer` returns `audio = none` but also
`error = none` — the error field is not populated, contradicting the
claim that it is non-null for the all-segments-failed case. -/
theorem C4_counterexample :
    PodcastCreator.clean_script c4Script ≠ [] ∧
    (PodcastCreator.process_answer ("ans").data (some c4Script)
        (fun _ _ => none) [0]).audio = none ∧
    (PodcastCreator.process_answer ("ans").data (some c4Script)
        (fun _ _ => none) [0]).error = none := by
  decide

/-- C4 (amended): for every script in which every segment's synthesis
fails, the pipeline terminates with a well-defined `PodcastResponse` whose
`audio` is `none` and whose `error` is also `none`: per-segment failures
are absorbed silently, and the all-segments-failed case is not surfaced
through the error field (which is assigned only when an exception escapes
the response assembly, a path the pipeline's all-fail case never takes). -/
theorem C4_amended (ta script : List Char)
    (synth : Nat → List Char → Option (List Nat)) (sched : List Nat)
    (h : ∀ i t, synth i t = none) :
    (PodcastCreator.process_answer ta (some script) synth sched).audio = none ∧
    (PodcastCreator.process_answer ta (some script) synth sched).error = none := by
  constructor
  · show PodcastCreator.create_podcast script synth sched = none
    exact PodcastCreator.create_podcast_all_fail script synth sched h
  · rfl

/-- Witness for the amended C4 at the concrete all-fail scenario. -/
theorem C4_amended_witness :
    (PodcastCreator.process_answer ("ans").data (some c4Script)
        (fun _ _ => none) [0]).audio = none ∧
    (PodcastCreator.process_answer ("ans").data (some c4Script)
        (fun _ _ => none) [0]).error = none :=
  C4_amended ("ans").data c4Script (fun _ _ => none) [0] (fun _ _ => rfl)

theorem splitOnNl_ne_nil (s : List Char) : splitOnNl s ≠ [] := by
  cases s with
  | nil => simp [splitOnNl]
  | cons c cs =>
    rw [splitOnNl]
    split
    · simp
    · split <;> simp

theorem mem_splitOnNl_subset (s : List Char) :
    ∀ l ∈ splitOnNl s, ∀ c ∈ l, c ∈ s := by
  induction s with
  | nil =>
    intro l hl c hc
    simp [splitOnNl] at hl
    subst hl
    simp at hc
  | cons a cs ih =>
    intro l hl c hc
    rw [splitOnNl] at hl
    by_cases ha : a = '\n'
    · rw [if_pos ha] at hl
      rcases List.mem_cons.mp hl with rfl | hl2
      · simp at hc
      · exact List.mem_cons_of_mem a (ih l hl2 c hc)
    · rw [if_neg ha] at hl
      cases hsp : splitOnNl cs with
      | nil => exact absurd hsp (splitOnNl_ne_nil cs)
      | cons l0 ls =>
        rw [hsp] at hl
        rcases List.mem_cons.mp hl with rfl | hl2
        · rcases List.mem_cons.mp hc with rfl | hc2
          · exact List.mem_cons_self _ _
          · exact List.mem_cons_of_mem a
              (ih l0 (by rw [hsp]; exact List.mem_cons_self _ _) c hc2)
        · exact List.mem_cons_of_mem a
            (ih l (by rw [hsp]; exact List.mem_cons_of_mem l0 hl2) c hc)

theorem mem_of_mem_strip {c : Char} {l : List Char} (h : c ∈ strip l) : c ∈ l := by
  unfold strip at h
  rw [List.mem_reverse] at h
  have h2 : c ∈ (l.dropWhile pyIsSpace).reverse := (List.dropWhile_sublist _).mem h
  rw [List.mem_reverse] at h2
  exact (List.dropWhile_sublist _).mem h2

theorem cleanLoop_no_colon (lines : List (List Char))
    (h : ∀ l ∈ lines, (':') ∉ l) :
    ∀ ct, PodcastCreator.cleanLoop lines none ct = [] := by
  induction lines with
  | nil => intro ct; rfl
  | cons line rest ih =>
    intro ct
    rw [PodcastCreator.cleanLoop]
    rw [if_neg (h line (List.mem_cons_self _ _))]
    exact ih (fun l hl => h l (List.mem_cons_of_mem _ hl)) ct

theorem clean_script_no_colon (script : List Char) (h : (':') ∉ script) :
    PodcastCreator.clean_script script = [] := by
  unfold PodcastCreator.clean_script
  apply cleanLoop_no_colon
  intro l hl hcl
  unfold PodcastCreator.processedLines at hl
  have hl2 := List.mem_of_mem_filter hl
  rcases List.mem_map.mp hl2 with ⟨raw, hraw, rfl⟩
  exact h (mem_splitOnNl_subset script raw hraw ':' (mem_of_mem_strip hcl))

/-- C6: a script with no `':'` anywhere (hence no delimiter line) parses
to zero segments, and the pipeline returns a response with `audio = none`
and `error = none`: nothing to synthesize is not a fault. -/
theorem C6_no_delimiter (script ta : List Char)
    (synth : Nat → List Char → Option (List Nat)) (sched : List Nat)
    (h : (':') ∉ script) :
    PodcastCreator.clean_script script = [] ∧
    (PodcastCreator.process_answer ta (some script) synth sched).audio = none ∧
    (PodcastCreator.process_answer ta (some script) synth sched).error = none := by
  have hcs := clean_script_no_colon script h
  refine ⟨hcs, ?_, rfl⟩
  show PodcastCreator.create_podcast script synth sched = none
  unfold PodcastCreator.create_podcast
  simp [hcs]

/-- Witness for C6 on a concrete delimiter-free script. -/
theorem C6_no_delimiter_witness :
    PodcastCreator.clean_script ("hello world\nno delimiter here").data = [] ∧
    (PodcastCreator.process_answer ("ans").data
        (some ("hello world\nno delimiter here").data)
        (fun _ _ => some [1]) [0]).audio = none ∧
    (PodcastCreator.process_answer ("ans").data
        (some ("hello world\nno delimiter here").data)
        (fun _ _ => some [1]) [0]).error = none :=
  C6_no_delimiter ("hello world\nno delimiter here").data ("ans").data
    (fun _ _ => some [1]) [0] (by decide)

theorem enum_map_snd (synth : Nat → List Char → Option (List Nat)) (l : List Segment) :
    l.enum.map (fun p => synth p.1 p.2.2)
      = (l.map Prod.snd).enum.map (fun p => synth p.1 p.2) := by
  rw [List.enum_map, List.map_map]
  rfl

set_option maxRecDepth 10000 in
/-- C7 counterexample: in `VoiceGenerator.create_podcast`, a segment line
identical but for the speaker label is dropped when the label is not one
of the two table entries: `Bob: hi there` parses to no segment (and the
pipeline yields no audio even with an always-succeeding synthesizer),
while `Mike: hi there` parses to one segment — there is no alternating
positional fallback, so a segment is dropped solely because of an
unrecognized speaker name. -/
theorem C7_counterexample :
    VoiceGenerator.parseSegments c7BobScript = [] ∧
    VoiceGenerator.parseSegments c7MikeScript
      = [(("Mike").data, ("hi there").data)] ∧
    VoiceGenerator.create_podcast c7BobScript (fun _ => some [1]) = none := by
  decide

/-- C7 (amended): in the thread-pool pipeline (`podcast_creator`), voice
selection ignores the speaker label entirely — the output depends only on
the segment texts and positions, so two scripts whose parses carry the
same texts in the same order produce identical audio whatever their
speaker labels, and no segment is ever dropped because of its label; in
the ElevenLabs pipeline (`voice_generator`), every surviving segment's
speaker is one of the two fixed table labels (Sarah, Mike) — unrecognized
labels are dropped rather than falling back to positional assignment. -/
theorem C7_amended (s1 s2 script : List Char)
    (synth : Nat → List Char → Option (List Nat)) (sched : List Nat) :
    ((PodcastCreator.clean_script s1).map Prod.snd
        = (PodcastCreator.clean_script s2).map Prod.snd →
      PodcastCreator.create_podcast s1 synth sched
        = PodcastCreator.create_podcast s2 synth sched) ∧
    (∀ seg ∈ VoiceGenerator.parseSegments script,
      seg.1 = ("Sarah").data ∨ seg.1 = ("Mike").data) := by
  constructor
  · intro h
    have hres : (PodcastCreator.clean_script s1).enum.map (fun p => synth p.1 p.2.2)
        = (PodcastCreator.clean_script s2).enum.map (fun p => synth p.1 p.2.2) := by
      rw [enum_map_snd, enum_map_snd, h]
    have hnil : (PodcastCreator.clean_script s1 = [])
        ↔ (PodcastCreator.clean_script s2 = []) := by
      rw [← @List.map_eq_nil_iff _ _ Prod.snd (PodcastCreator.clean_script s1),
        ← @List.map_eq_nil_iff _ _ Prod.snd (PodcastCreator.clean_script s2), h]
    unfold PodcastCreator.create_podcast
    by_cases h1 : PodcastCreator.clean_script s1 = []
    · rw [if_pos h1, if_pos (hnil.mp h1)]
    · simp only [if_neg h1, if_neg (fun hx => h1 (hnil.mpr hx))]
      rw [hres]
  · intro seg hseg
    unfold VoiceGenerator.parseSegments at hseg
    rcases List.mem_filterMap.mp hseg with ⟨line, _, hline⟩
    dsimp only at hline
    split at hline
    · split at hline
      · rename_i hcond
        have hpair := Option.some.inj hline
        have h2 : seg.1 ∈ VoiceGenerator.knownSpeakers := by
          rw [← hpair]
          exact hcond.2
        simp only [VoiceGenerator.knownSpeakers, List.mem_cons,
          List.mem_singleton] at h2
        simpa using h2
      · cases hline
    · cases hline

set_option maxRecDepth 10000 in
/-- Witness for the amended C7: two one-segment scripts with the same text
and different speaker labels give the same pipeline output, and every
parsed ElevenLabs segment has a table speaker. -/
theorem C7_amended_witness :
    PodcastCreator.create_podcast ("Sarah: hi").data (fun i _ => some [i]) [0]
      = PodcastCreator.create_podcast ("Bob: hi").data (fun i _ => some [i]) [0] ∧
    (∀ seg ∈ VoiceGenerator.parseSegments ("Bob: hi\nMike: yo").data,
      seg.1 = ("Sarah").data ∨ seg.1 = ("Mike").data) :=
  ⟨(C7_amended ("Sarah: hi").data ("Bob: hi").data ("Bob: hi\nMike: yo").data
      (fun i _ => some [i]) [0]).1 (by decide),
    (C7_amended ("Sarah: hi").data ("Bob: hi").data ("Bob: hi\nMike: yo").data
      (fun i _ => some [i]) [0]).2⟩

/-- C8: a text that is empty after trimming makes `get_audio` fail without
touching the engine (no audio is produced and the processor state —
backend-call counter included — is unchanged), and the caller
`process_segment` turns this into a skipped segment (`none`) rather than a
fault; a backend error for a non-empty, uncached text is likewise turned
into a skipped segment; and at collection time skipped segments are simply
dropped while all successful ones are kept in order. -/
theorem C8_empty_text_skip (st : AudioProcessor.State)
    (text voice_id v1 v2 e : List Char) (b : Bool)
    (outcome : Except (List Char) (List Char)) :
    (strip text = [] →
      AudioProcessor.get_audio st text voice_id outcome = ((none, []), st)) ∧
    (strip text = [] →
      PodcastCreator.process_segment st text b v1 v2 outcome = (none, st)) ∧
    (strip text ≠ [] →
      st.cache.lookup (AudioProcessor.cacheKey text (if b then v1 else v2)) = none →
      PodcastCreator.process_segment st text b v1 v2 (Except.error e)
        = (none, ⟨st.cache, st.backendCalls + 1⟩)) ∧
    (∀ (rs : List (Option (List Nat))) (sched : List Nat),
      (∀ i < rs.length, i ∈ sched) →
      PodcastCreator.collectFiles rs sched = rs.filterMap id) := by
  have h1 : ∀ voice, strip text = [] →
      AudioProcessor.get_audio st text voice outcome = ((none, []), st) := by
    intro voice h
    unfold AudioProcessor.get_audio
    rw [if_pos h]
  refine ⟨h1 voice_id, ?_, ?_, ?_⟩
  · intro h
    simp only [PodcastCreator.process_segment]
    rw [h1 _ h]
    simp
  · intro hne hcache
    simp only [PodcastCreator.process_segment]
    unfold AudioProcessor.get_audio
    rw [if_neg hne, hcache]
    split <;> rfl
  · exact fun rs sched h => PodcastCreator.collectFiles_eq rs sched h

/-- Witness for C8: a whitespace-only text and a backend error on a
non-empty text, both skipped; one failed segment dropped at collection. -/
theorem C8_empty_text_skip_witness :
    AudioProcessor.get_audio ⟨[], 0⟩ (" ").data ("v").data (Except.ok ("f").data)
      = ((none, []), ⟨[], 0⟩) ∧
    PodcastCreator.process_segment ⟨[], 0⟩ (" ").data true ("v1").data ("v2").data
        (Except.ok ("f").data) = (none, ⟨[], 0⟩) ∧
    PodcastCreator.process_segment ⟨[], 0⟩ ("hi").data true ("v1").data ("v2").data
        (Except.error ("boom").data) = (none, ⟨[], 1⟩) ∧
    PodcastCreator.collectFiles [some [5], none] [1, 0] = [[5]] :=
  ⟨(C8_empty_text_skip ⟨[], 0⟩ (" ").data ("v").data ("v1").data ("v2").data
      ("boom").data true (Except.ok ("f").data)).1 (by decide),
    (C8_empty_text_skip ⟨[], 0⟩ (" ").data ("v").data ("v1").data ("v2").data
      ("boom").data true (Except.ok ("f").data)).2.1 (by decide),
    (C8_empty_text_skip ⟨[], 0⟩ ("hi").data ("v").data ("v1").data ("v2").data
      ("boom").data true (Except.ok ("f").data)).2.2.1 (by decide) (by decide),
    (C8_empty_text_skip ⟨[], 0⟩ ("hi").data ("v").data ("v1").data ("v2").data
      ("boom").data true (Except.ok ("f").data)).2.2.2 [some [5], none] [1, 0]
      (by decide)⟩

theorem dropWhile_cons_head {p : Char → Bool} :
    ∀ (l : List Char) {c : Char} {t : List Char}, l.dropWhile p = c :: t → p c = false := by
  intro l
  induction l with
  | nil => intro c t h; cases h
  | cons a as ih =>
    intro c t h
    rw [List.dropWhile_cons] at h
    by_cases hp : p a = true
    · rw [if_pos hp] at h
      exact ih h
    · rw [if_neg hp] at h
      injection h with h1 _
      subst h1
      simpa using hp

theorem dropWhile_dropWhile {p : Char → Bool} (l : List Char) :
    (l.dropWhile p).dropWhile p = l.dropWhile p := by
  cases h : l.dropWhile p with
  | nil => rfl
  | cons c t =>
    rw [List.dropWhile_cons, if_neg]
    simp [dropWhile_cons_head l h]

theorem mem_dropWhile_of_mem {c : Char} {p : Char → Bool} (hc : p c = false) :
    ∀ l : List Char, c ∈ l → c ∈ l.dropWhile p := by
  intro l
  induction l with
  | nil => simp
  | cons a t ih =>
    intro h
    rw [List.dropWhile_cons]
    by_cases hp : p a = true
    · rw [if_pos hp]
      rcases List.mem_cons.mp h with rfl | h2
      · rw [hc] at hp
        cases hp
      · exact ih h2
    · rw [if_neg hp]
      exact h

theorem mem_strip_iff {c : Char} (hc : pyIsSpace c = false) (l : List Char) :
    c ∈ strip l ↔ c ∈ l := by
  constructor
  · exact mem_of_mem_strip
  · intro h
    unfold strip
    rw [List.mem_reverse]
    apply mem_dropWhile_of_mem hc
    rw [List.mem_reverse]
    exact mem_dropWhile_of_mem hc l h

theorem strip_colon_iff (l : List Char) : (':') ∈ strip l ↔ (':') ∈ l :=
  mem_strip_iff (by decide) l

theorem stripEnd_head {c : Char} {t : List Char} (hc : pyIsSpace c = false) :
    stripEnd (c :: t) = [] ∨ ∃ u, stripEnd (c :: t) = c :: u := by
  unfold stripEnd
  rw [List.reverse_cons, List.dropWhile_append]
  by_cases he : (t.reverse.dropWhile pyIsSpace).isEmpty = true
  · rw [if_pos he]
    rw [List.dropWhile_cons]
    rw [if_neg (by simp [hc])]
    right
    exact ⟨[], by simp⟩
  · rw [if_neg he]
    right
    exact ⟨(t.reverse.dropWhile pyIsSpace).reverse, by simp⟩

theorem stripEnd_stripEnd (l : List Char) : stripEnd (stripEnd l) = stripEnd l := by
  unfold stripEnd
  rw [List.reverse_reverse, dropWhile_dropWhile]

theorem strip_eq_stripEnd (l : List Char) :
    strip l = stripEnd (l.dropWhile pyIsSpace) := rfl

theorem strip_idem (l : List Char) : strip (strip l) = strip l := by
  rw [strip_eq_stripEnd l]
  cases hA : l.dropWhile pyIsSpace with
  | nil => rfl
  | cons c t =>
    have hc : pyIsSpace c = false := dropWhile_cons_head l hA
    have hS : (stripEnd (c :: t)).dropWhile pyIsSpace = stripEnd (c :: t) := by
      rcases stripEnd_head hc with he | ⟨u, hu⟩
      · rw [he]
        rfl
      · rw [hu, List.dropWhile_cons, if_neg (by simp [hc])]
    rw [strip_eq_stripEnd, hS, stripEnd_stripEnd]

theorem specParse_length : ∀ lines : List (List Char),
    (specParse lines).length = lines.countP (fun l => decide ((':') ∈ l)) := by
  intro lines
  induction lines using specParse.induct with
  | case1 => rw [specParse]; rfl
  | case2 line rest hc ih =>
    rw [specParse, if_pos hc]
    have hsplit : rest.countP (fun l => decide ((':') ∈ l))
        = (rest.takeWhile noColon).countP (fun l => decide ((':') ∈ l))
          + (rest.dropWhile noColon).countP (fun l => decide ((':') ∈ l)) := by
      rw [← List.countP_append, List.takeWhile_append_dropWhile]
    have htake : (rest.takeWhile noColon).countP (fun l => decide ((':') ∈ l)) = 0 := by
      rw [List.countP_eq_zero]
      intro a ha
      have h2 := List.mem_takeWhile_imp ha
      simp [noColon] at h2
      simp [h2]
    rw [List.length_cons, ih, List.countP_cons]
    simp [hc, hsplit, htake]
  | case3 line rest hc ih =>
    rw [specParse, if_neg hc, ih, List.countP_cons]
    simp [hc]

theorem cleanLoop_speaker_run :
    ∀ (lines : List (List Char)) (sp : List Char) (ct : List (List Char)),
      sp ≠ [] → ct ≠ [] →
      (∀ l ∈ lines, (':') ∈ l → strip (splitColon1 l).1 ≠ []) →
      PodcastCreator.cleanLoop lines (some sp) ct
        = (sp, joinSpace (ct ++ lines.takeWhile noColon))
            :: specParse (lines.dropWhile noColon) := by
  intro lines
  induction lines with
  | nil =>
    intro sp ct hsp hct _
    show (if sp ≠ [] ∧ ct ≠ [] then [(sp, joinSpace ct)] else []) = _
    rw [if_pos ⟨hsp, hct⟩]
    simp [specParse]
  | cons line rest ih =>
    intro sp ct hsp hct hwf
    rw [PodcastCreator.cleanLoop]
    by_cases hc : (':') ∈ line
    · rw [if_pos hc]
      have hsave : PodcastCreator.saveSeg (some sp) ct = [(sp, joinSpace ct)] := by
        show (if sp ≠ [] ∧ ct ≠ [] then [(sp, joinSpace ct)] else []) = _
        rw [if_pos ⟨hsp, hct⟩]
      rw [hsave]
      have hsp2 : strip (splitColon1 line).1 ≠ [] :=
        hwf line (List.mem_cons_self _ _) hc
      rw [ih (strip (splitColon1 line).1) [strip (splitColon1 line).2] hsp2 (by simp)
        (fun l hl => hwf l (List.mem_cons_of_mem _ hl))]
      have hnc : noColon line = false := by simp [noColon, hc]
      rw [List.takeWhile_cons, List.dropWhile_cons]
      rw [hnc]
      simp only [if_false, Bool.false_eq_true]
      rw [specParse, if_pos hc]
      simp
    · rw [if_neg hc]
      show (if sp ≠ [] then PodcastCreator.cleanLoop rest (some sp) (ct ++ [line])
        else PodcastCreator.cleanLoop rest (some sp) ct) = _
      rw [if_pos hsp]
      rw [ih sp (ct ++ [line]) hsp (by simp)
        (fun l hl => hwf l (List.mem_cons_of_mem _ hl))]
      have hnc : noColon line = true := by simp [noColon, hc]
      rw [List.takeWhile_cons, List.dropWhile_cons, hnc]
      simp [List.append_assoc]

theorem cleanLoop_none_eq_specParse :
    ∀ (lines : List (List Char)) (ct : List (List Char)),
      (∀ l ∈ lines, (':') ∈ l → strip (splitColon1 l).1 ≠ []) →
      PodcastCreator.cleanLoop lines none ct = specParse lines := by
  intro lines
  induction lines with
  | nil =>
    intro ct _
    rw [specParse]
    rfl
  | cons line rest ih =>
    intro ct hwf
    rw [PodcastCreator.cleanLoop]
    by_cases hc : (':') ∈ line
    · rw [if_pos hc]
      show [] ++ PodcastCreator.cleanLoop rest
          (some (strip (splitColon1 line).1)) [strip (splitColon1 line).2] = _
      rw [List.nil_append]
      rw [cleanLoop_speaker_run rest _ _ (hwf line (List.mem_cons_self _ _) hc) (by simp)
        (fun l hl => hwf l (List.mem_cons_of_mem _ hl))]
      rw [specParse, if_pos hc]
      simp
    · rw [if_neg hc]
      show PodcastCreator.cleanLoop rest none ct = _
      rw [ih ct (fun l hl => hwf l (List.mem_cons_of_mem _ hl)), specParse, if_neg hc]

theorem countP_colon_processed (raws : List (List Char)) :
    ((raws.map strip).filter (fun l => !l.isEmpty)).countP (fun l => decide ((':') ∈ l))
      = raws.countP (fun l => decide ((':') ∈ l)) := by
  induction raws with
  | nil => rfl
  | cons r rest ih =>
    simp only [List.map_cons, List.filter_cons]
    by_cases he : (strip r).isEmpty = true
    · have hre : strip r = [] := List.isEmpty_iff.mp he
      have hcr : ¬ (':') ∈ r := by
        intro hin
        have h2 := (strip_colon_iff r).mpr hin
        rw [hre] at h2
        cases h2
      simp [he, ih, List.countP_cons, hcr]
    · have hcol : decide ((':') ∈ strip r) = decide ((':') ∈ r) := by
        by_cases h2 : (':') ∈ r
        · simp [h2, (strip_colon_iff r).mpr h2]
        · have h3 : ¬ (':') ∈ strip r := fun hx => h2 ((strip_colon_iff r).mp hx)
          simp [h2, h3]
      simp [he, List.countP_cons, ih, hcol]

/-- C5: for every script in which each delimiter line has a non-empty
trimmed speaker part, `clean_script` agrees with the spec's parsing rule
(`specParse`, stated on the stripped non-blank lines): one segment per
delimiter line, in the order the delimiter lines appear, with the trimmed
pre-':' text as speaker and the trimmed remainder followed by the
subsequent continuation lines joined by single spaces as text; in
particular the number of segments equals the number of lines of the
script containing ':'. -/
theorem C5_parse_rule (script : List Char)
    (hwf : ∀ l ∈ PodcastCreator.processedLines script,
      (':') ∈ l → strip (splitColon1 l).1 ≠ []) :
    PodcastCreator.clean_script script
      = specParse (PodcastCreator.processedLines script) ∧
    (PodcastCreator.clean_script script).length
      = (splitOnNl script).countP (fun l => decide ((':') ∈ l)) := by
  have h1 := cleanLoop_none_eq_specParse (PodcastCreator.processedLines script) [] hwf
  constructor
  · exact h1
  · show (PodcastCreator.cleanLoop (PodcastCreator.processedLines script) none []).length
      = _
    rw [h1, specParse_length]
    show ((((splitOnNl script).map strip).filter
        (fun l => !l.isEmpty)).countP (fun l => decide ((':') ∈ l))) = _
    exact countP_colon_processed _

set_option maxRecDepth 10000 in
/-- Witness for C5: the spec's 4-line example script (2 delimiter lines,
2 continuation lines) parses to exactly 2 segments. -/
theorem C5_parse_rule_witness :
    PodcastCreator.clean_script ("Sarah: Hello\nmore text\nMike: Hi\nagain").data
      = specParse (PodcastCreator.processedLines
          ("Sarah: Hello\nmore text\nMike: Hi\nagain").data) ∧
    (PodcastCreator.clean_script
        ("Sarah: Hello\nmore text\nMike: Hi\nagain").data).length
      = (splitOnNl ("Sarah: Hello\nmore text\nMike: Hi\nagain").data).countP
          (fun l => decide ((':') ∈ l)) :=
  C5_parse_rule ("Sarah: Hello\nmore text\nMike: Hi\nagain").data (by decide)

theorem cleanLoop_cons_none (line : List Char) (rest : List (List Char))
    (ct : List (List Char)) :
    PodcastCreator.cleanLoop (line :: rest) none ct
      = if (':') ∈ line then
          PodcastCreator.saveSeg none ct ++
            PodcastCreator.cleanLoop rest (some (strip (splitColon1 line).1))
              [strip (splitColon1 line).2]
        else PodcastCreator.cleanLoop rest none ct := rfl

theorem cleanLoop_cons_some (line : List Char) (rest : List (List Char))
    (sp : List Char) (ct : List (List Char)) :
    PodcastCreator.cleanLoop (line :: rest) (some sp) ct
      = if (':') ∈ line then
          PodcastCreator.saveSeg (some sp) ct ++
            PodcastCreator.cleanLoop rest (some (strip (splitColon1 line).1))
              [strip (splitColon1 line).2]
        else if sp ≠ [] then PodcastCreator.cleanLoop rest (some sp) (ct ++ [line])
          else PodcastCreator.cleanLoop rest (some sp) ct := rfl

theorem saveSeg_speakers (cs : Option (List Char)) (ct : List (List Char))
    (hinv : ∀ s, cs = some s → strip s = s) :
    ∀ seg ∈ PodcastCreator.saveSeg cs ct, seg.1 ≠ [] ∧ strip seg.1 = seg.1 := by
  intro seg hseg
  cases cs with
  | none => cases hseg
  | some sp =>
    have hseg2 : seg ∈ (if sp ≠ [] ∧ ct ≠ [] then [(sp, joinSpace ct)] else []) := hseg
    split at hseg2
    · rename_i hcond
      rcases List.mem_singleton.mp hseg2 with rfl
      exact ⟨hcond.1, hinv sp rfl⟩
    · cases hseg2

theorem cleanLoop_speakers :
    ∀ (lines : List (List Char)) (cs : Option (List Char)) (ct : List (List Char)),
      (∀ s, cs = some s → strip s = s) →
      ∀ seg ∈ PodcastCreator.cleanLoop lines cs ct,
        seg.1 ≠ [] ∧ strip seg.1 = seg.1 := by
  intro lines
  induction lines with
  | nil => intro cs ct hinv; exact saveSeg_speakers cs ct hinv
  | cons line rest ih =>
    intro cs ct hinv seg hseg
    cases cs with
    | none =>
      rw [cleanLoop_cons_none] at hseg
      by_cases hcl : (':') ∈ line
      · rw [if_pos hcl] at hseg
        rcases List.mem_append.mp hseg with hs | hs
        · exact saveSeg_speakers none ct hinv seg hs
        · refine ih _ _ ?_ seg hs
          intro s hs2
          injection hs2 with h3
          subst h3
          exact strip_idem _
      · rw [if_neg hcl] at hseg
        exact ih none ct hinv seg hseg
    | some sp =>
      rw [cleanLoop_cons_some] at hseg
      by_cases hcl : (':') ∈ line
      · rw [if_pos hcl] at hseg
        rcases List.mem_append.mp hseg with hs | hs
        · exact saveSeg_speakers (some sp) ct hinv seg hs
        · refine ih _ _ ?_ seg hs
          intro s hs2
          injection hs2 with h3
          subst h3
          exact strip_idem _
      · rw [if_neg hcl] at hseg
        split at hseg
        · exact ih (some sp) (ct ++ [line]) hinv seg hseg
        · exact ih (some sp) ct hinv seg hseg

theorem cleanLoop_skip_leading :
    ∀ (lines : List (List Char)) (ct : List (List Char)),
      PodcastCreator.cleanLoop lines none ct
        = PodcastCreator.cleanLoop (lines.dropWhile noColon) none ct := by
  intro lines
  induction lines with
  | nil => intro ct; rfl
  | cons line rest ih =>
    intro ct
    rw [List.dropWhile_cons]
    by_cases hc : (':') ∈ line
    · rw [if_neg (by simp [noColon, hc])]
    · rw [if_pos (by simp [noColon, hc])]
      rw [PodcastCreator.cleanLoop, if_neg hc]
      exact ih ct

/-- C9: every segment produced by `clean_script` has a non-empty,
fully-trimmed speaker (a delimiter line whose pre-':' part trims to the
empty string never yields a saved segment), and the parse of a script
equals the parse of the script with all lines preceding the first
delimiter line discarded — text before the first delimiter line never
reaches any segment. -/
theorem C9_speaker_invariant (script : List Char) :
    (∀ seg ∈ PodcastCreator.clean_script script,
      seg.1 ≠ [] ∧ strip seg.1 = seg.1) ∧
    PodcastCreator.clean_script script
      = PodcastCreator.cleanLoop
          ((PodcastCreator.processedLines script).dropWhile noColon) none [] :=
  ⟨cleanLoop_speakers _ none [] (fun _ hs => by cases hs),
    cleanLoop_skip_leading _ []⟩

set_option maxRecDepth 10000 in
/-- Witness for C9: a script with junk before the first delimiter line
and an anonymous-speaker delimiter line. -/
theorem C9_speaker_invariant_witness :
    (∀ seg ∈ PodcastCreator.clean_script ("junk line\nSarah: hi\n: anon").data,
      seg.1 ≠ [] ∧ strip seg.1 = seg.1) ∧
    PodcastCreator.clean_script ("junk line\nSarah: hi\n: anon").data
      = PodcastCreator.cleanLoop
          ((PodcastCreator.processedLines
            ("junk line\nSarah: hi\n: anon").data).dropWhile noColon) none [] :=
  C9_speaker_invariant ("junk line\nSarah: hi\n: anon").data
